import Mathlib

/-!
Verification of the content-acquisition and summarization pipeline of
`elsummariz00r` (a personal web/YouTube/site summarization CLI).

The development is a shallow embedding of the TypeScript sources:

* strings are embedded as `List Char` (`Str`), and the handful of regex /
  string-library operations the code relies on (`split(/\s+/)`,
  `replaceAll`, `trim`, frontmatter regexes, …) are given explicit
  executable definitions mirroring the JavaScript semantics;
* `src/run.ts` — `chunkPages`, `getCachedResult`, `runSummarize`,
  `runSummarizeSite` (the map-reduce site summarizer);
* `src/storage.ts` — `normalizeUrl`, `findByUrl`, frontmatter handling;
* `src/site.ts` — `getRootUrl`, `crawlLinks`, `stripCommonText`;
* `src/youtube.ts` — `selectBestTrack`;
* `src/cdp.ts` — `findTabByUrl`.

Effectful collaborators (browser tabs, network fetches, the LLM oracle,
the filesystem) are passed in explicitly as data / function parameters,
so every embedded operation is a computable function and concrete runs
can be settled by `decide`.
-/

set_option autoImplicit false

namespace Els

/-- Strings of the embedded program: JavaScript strings as lists of characters. -/
abbrev Str := List Char

/-- The characters of a Lean string literal, used to write embedded strings. -/
def chars (s : String) : Str := s.data

/-- `leadsWith pat s` = JavaScript `s.startsWith(pat)`. -/
def leadsWith : Str → Str → Bool
  | [], _ => true
  | _ :: _, [] => false
  | p :: ps, c :: cs => p == c && leadsWith ps cs

/-- `trailsWith pat s` = JavaScript `s.endsWith(pat)`. -/
def trailsWith (pat s : Str) : Bool := leadsWith pat.reverse s.reverse

/-- `hasSub pat s` = JavaScript `s.includes(pat)`: `pat` occurs as a
contiguous substring of `s`. -/
def hasSub (pat : Str) : Str → Bool
  | [] => leadsWith pat []
  | c :: cs => leadsWith pat (c :: cs) || hasSub pat cs

/-- JavaScript whitespace test for the `\s` regex class (the characters the
embedded program ever meets). -/
def isWs (c : Char) : Bool :=
  c == ' ' || c == '\n' || c == '\t' || c == '\r'

/-- JavaScript `s.trim()`. -/
def jsTrim (s : Str) : Str :=
  ((s.dropWhile isWs).reverse.dropWhile isWs).reverse

-- ---------------------------------------------------------------------------
-- src/run.ts — `chunkPages` (map-reduce chunking)
-- ---------------------------------------------------------------------------

/-- `SitePage` of `src/site.ts`: one fetched page of a site. -/
structure SitePage where
  url : Str
  title : Str
  content : Str
  words : Nat
deriving DecidableEq, Repr

/-- Total word count of a list of pages (`chunk.reduce((sum, p) => sum + p.words, 0)`). -/
def wordSum (pages : List SitePage) : Nat :=
  pages.foldl (fun sum p => sum + p.words) 0

/-- The loop of `chunkPages` (src/run.ts:255-263): `current` is the chunk
being accumulated, `currentWords` its running word total. -/
def chunkGo (maxWords : Nat) : List SitePage → List SitePage → Nat → List (List SitePage)
  | [], current, _ => if current = [] then [] else [current]
  | p :: rest, current, currentWords =>
    if currentWords + p.words > maxWords ∧ current ≠ [] then
      current :: chunkGo maxWords rest [p] p.words
    else
      chunkGo maxWords rest (current ++ [p]) (currentWords + p.words)

/-- `chunkPages` (src/run.ts:250-266): split pages into chunks greedily by
word budget; a page that alone exceeds the budget still forms a chunk. -/
def chunkPages (pages : List SitePage) (maxWords : Nat) : List (List SitePage) :=
  chunkGo maxWords pages [] 0

theorem chunkGo_join (maxWords : Nat) :
    ∀ (rest current : List SitePage) (cw : Nat),
      (chunkGo maxWords rest current cw).join = current ++ rest := by
  intro rest
  induction rest with
  | nil =>
    intro current cw
    by_cases h : current = [] <;> simp [chunkGo, h]
  | cons p rest ih =>
    intro current cw
    by_cases h : cw + p.words > maxWords ∧ current ≠ []
    · simp [chunkGo, h, ih]
    · simp [chunkGo, h, ih]

theorem chunkGo_ne_nil (maxWords : Nat) :
    ∀ (rest current : List SitePage) (cw : Nat),
      ∀ c ∈ chunkGo maxWords rest current cw, c ≠ [] := by
  intro rest
  induction rest with
  | nil =>
    intro current cw c hc
    by_cases h : current = [] <;> simp [chunkGo, h] at hc
    · exact hc ▸ h
  | cons p rest ih =>
    intro current cw c hc
    by_cases h : cw + p.words > maxWords ∧ current ≠ []
    · simp only [chunkGo, if_pos h] at hc
      rcases List.mem_cons.mp hc with rfl | hc
      · exact h.2
      · exact ih _ _ c hc
    · simp only [chunkGo, if_neg h] at hc
      exact ih _ _ c hc

theorem wordSum_shift (l : List SitePage) :
    ∀ init : Nat, l.foldl (fun sum p => sum + p.words) init = init + wordSum l := by
  induction l with
  | nil => intro init; simp [wordSum]
  | cons p l ih =>
    intro init
    show l.foldl _ (init + p.words) = _
    rw [ih (init + p.words)]
    show _ = init + l.foldl _ (0 + p.words)
    rw [ih (0 + p.words)]
    omega

theorem wordSum_append (a b : List SitePage) :
    wordSum (a ++ b) = wordSum a + wordSum b := by
  show (a ++ b).foldl _ 0 = _
  rw [List.foldl_append, wordSum_shift b]
  rfl

theorem chunkGo_budget (maxWords : Nat) :
    ∀ (rest current : List SitePage) (cw : Nat),
      cw = wordSum current →
      (2 ≤ current.length → cw ≤ maxWords) →
      ∀ c ∈ chunkGo maxWords rest current cw, 2 ≤ c.length → wordSum c ≤ maxWords := by
  intro rest
  induction rest with
  | nil =>
    intro current cw hsum hbound c hc hlen
    by_cases h : current = [] <;> simp [chunkGo, h] at hc
    · exact hc ▸ (hsum ▸ hbound (hc ▸ hlen))
  | cons p rest ih =>
    intro current cw hsum hbound c hc hlen
    by_cases h : cw + p.words > maxWords ∧ current ≠ []
    · simp only [chunkGo, if_pos h] at hc
      rcases List.mem_cons.mp hc with rfl | hc
      · exact hsum ▸ hbound hlen
      · refine ih [p] p.words ?_ ?_ c hc hlen
        · simp [wordSum]
        · intro h2; simp at h2
    · simp only [chunkGo, if_neg h] at hc
      refine ih (current ++ [p]) (cw + p.words) ?_ ?_ c hc hlen
      · rw [wordSum_append, hsum]; simp [wordSum]
      · intro hlen2
        by_cases hcur : current = []
        · subst hcur; simp at hlen2
        · rcases not_and_or.mp h with h1 | h2
          · omega
          · exact absurd (not_not.mp h2) hcur

/-- C1: `chunkPages` is an order-preserving partition of its input: the
chunks concatenate back to the page list, every chunk is non-empty, and
any chunk whose total word count exceeds the budget is a single page. -/
theorem chunkPages_partition (pages : List SitePage) (maxWords : Nat)
    (hpos : 0 < maxWords) :
    (chunkPages pages maxWords).join = pages ∧
    (∀ c ∈ chunkPages pages maxWords, c ≠ []) ∧
    (∀ c ∈ chunkPages pages maxWords, maxWords < wordSum c → c.length = 1) := by
  refine ⟨by simpa using chunkGo_join maxWords pages [] 0, ?_, ?_⟩
  · exact chunkGo_ne_nil maxWords pages [] 0
  · intro c hc hover
    have hne := chunkGo_ne_nil maxWords pages [] 0 c hc
    have hb := chunkGo_budget maxWords pages [] 0 (by simp [wordSum]) (by intro h; simp at h) c hc
    by_contra hlen
    have h2 : 2 ≤ c.length := by
      rcases c with _ | ⟨a, _ | ⟨b, t⟩⟩
      · exact absurd rfl hne
      · exact absurd rfl hlen
      · simp
    exact absurd (hb h2) (by omega)

/-- Witness for C1 at a concrete input: budget 10, pages of 6, 5, 20 and 4
words chunk as `[[6], [5], [20], [4]]`-shaped partition facts. -/
theorem chunkPages_partition_witness :
    (0 : Nat) < 10 ∧
      ((chunkPages [⟨[], [], [], 6⟩, ⟨[], [], [], 5⟩, ⟨[], [], [], 20⟩, ⟨[], [], [], 4⟩] 10).join
          = [⟨[], [], [], 6⟩, ⟨[], [], [], 5⟩, ⟨[], [], [], 20⟩, ⟨[], [], [], 4⟩] ∧
        (∀ c ∈ chunkPages [⟨[], [], [], 6⟩, ⟨[], [], [], 5⟩, ⟨[], [], [], 20⟩, ⟨[], [], [], 4⟩] 10, c ≠ []) ∧
        (∀ c ∈ chunkPages [⟨[], [], [], 6⟩, ⟨[], [], [], 5⟩, ⟨[], [], [], 20⟩, ⟨[], [], [], 4⟩] 10,
          10 < wordSum c → c.length = 1)) :=
  ⟨by decide,
   chunkPages_partition [⟨[], [], [], 6⟩, ⟨[], [], [], 5⟩, ⟨[], [], [], 20⟩, ⟨[], [], [], 4⟩] 10
     (by decide)⟩

-- ---------------------------------------------------------------------------
-- src/youtube.ts — `selectBestTrack`
-- ---------------------------------------------------------------------------

/-- `CaptionTrack` of src/youtube.ts: `kind` is the optional `kind` field
(`"asr"` marks an auto-generated track). -/
structure CaptionTrack where
  languageCode : Str
  kind : Option Str
  baseUrl : Str
deriving DecidableEq, Repr

/-- `a.kind === "asr" ? 1 : 0` (src/youtube.ts:31-32). -/
def autoRank (t : CaptionTrack) : Nat :=
  if t.kind = some (chars "asr") then 1 else 0

/-- `a.languageCode === "en" || a.languageCode.startsWith("en-") ? 0 : 1`
(src/youtube.ts:35-38). -/
def enRank (t : CaptionTrack) : Nat :=
  if t.languageCode = chars "en" ∨ leadsWith (chars "en-") t.languageCode = true then 0 else 1

/-- The comparator of `selectBestTrack` orders tracks lexicographically by
`(autoRank, enRank)`; since `enRank < 2` this is the single key
`2 * autoRank + enRank`: 0 = manual English, 1 = manual other language,
2 = auto-generated English, 3 = auto-generated other language. -/
def trackKey (t : CaptionTrack) : Nat := 2 * autoRank t + enRank t

/-- Stable insertion of one track into an already sorted list: `x` goes
before the first element whose key is not smaller, so among equal keys the
earlier-listed track stays first — the stability ECMA-262 guarantees for
`Array.prototype.sort`. -/
def sortIns (x : CaptionTrack) : List CaptionTrack → List CaptionTrack
  | [] => [x]
  | y :: ys => if trackKey x ≤ trackKey y then x :: y :: ys else y :: sortIns x ys

/-- Stable sort of the track list by `trackKey`, the embedding of
`[...tracks].sort(comparator)` (src/youtube.ts:30-40): the comparator is a
consistent total preorder, for which the JS stable sort result is unique
and equals stable insertion sort. -/
def sortTracks : List CaptionTrack → List CaptionTrack
  | [] => []
  | x :: xs => sortIns x (sortTracks xs)

/-- `selectBestTrack` (src/youtube.ts:28-42): sort a copy, return element 0
(`none` when the list is empty — the caller guarantees non-emptiness). -/
def selectBestTrack (tracks : List CaptionTrack) : Option CaptionTrack :=
  (sortTracks tracks).head?

/-- The smallest `trackKey` of a list (0 for the empty list). -/
def minKey : List CaptionTrack → Nat
  | [] => 0
  | [t] => trackKey t
  | t :: ts => min (trackKey t) (minKey ts)

theorem minKey_cons (t : CaptionTrack) (ts : List CaptionTrack) (h : ts ≠ []) :
    minKey (t :: ts) = min (trackKey t) (minKey ts) := by
  cases ts with
  | nil => exact absurd rfl h
  | cons u us => rfl

theorem sortIns_ne_nil (x : CaptionTrack) (l : List CaptionTrack) :
    sortIns x l ≠ [] := by
  cases l with
  | nil => simp [sortIns]
  | cons y ys =>
    by_cases h : trackKey x ≤ trackKey y <;> simp [sortIns, h]

theorem head_sortIns (x : CaptionTrack) (l : List CaptionTrack) :
    (sortIns x l).head? =
      some (match l.head? with
        | none => x
        | some y => if trackKey x ≤ trackKey y then x else y) := by
  cases l with
  | nil => rfl
  | cons y ys =>
    by_cases h : trackKey x ≤ trackKey y <;> simp [sortIns, h]

theorem minKey_attained : ∀ ts : List CaptionTrack, ts ≠ [] →
    ∃ t ∈ ts, trackKey t = minKey ts := by
  intro ts
  induction ts with
  | nil => intro h; exact absurd rfl h
  | cons x xs ih =>
    intro _
    cases xs with
    | nil => exact ⟨x, by simp, rfl⟩
    | cons u us =>
      rcases ih (by simp) with ⟨t, ht, hkey⟩
      rw [minKey_cons x (u :: us) (by simp)]
      rcases le_total (trackKey x) (minKey (u :: us)) with hle | hle
      · exact ⟨x, by simp, by omega⟩
      · exact ⟨t, by simp [List.mem_cons.mp ht], by omega⟩

theorem selectBestTrack_eq_firstMin : ∀ ts : List CaptionTrack, ts ≠ [] →
    selectBestTrack ts = ts.find? (fun t => trackKey t == minKey ts) := by
  intro ts
  induction ts with
  | nil => intro h; exact absurd rfl h
  | cons x xs ih =>
    intro _
    cases xs with
    | nil => simp [selectBestTrack, sortTracks, sortIns, minKey, List.find?]
    | cons u us =>
      have hxs : (u :: us) ≠ [] := by simp
      have hIH := ih hxs
      have hne : sortTracks (u :: us) ≠ [] := by
        intro hcontra
        rw [selectBestTrack, hcontra] at hIH
        rcases minKey_attained (u :: us) hxs with ⟨t, ht, hkey⟩
        have : (u :: us).find? (fun t => trackKey t == minKey (u :: us)) ≠ none := by
          intro hnone
          have := List.find?_eq_none.mp hnone t ht
          simp [hkey] at this
        exact this hIH.symm
      rcases List.exists_cons_of_ne_nil hne with ⟨h0, t0, hs⟩
      have hh0 : (u :: us).find? (fun t => trackKey t == minKey (u :: us)) = some h0 := by
        rw [← hIH, selectBestTrack, hs]; rfl
      have hh0key : trackKey h0 = minKey (u :: us) := by
        have := List.find?_some hh0
        simpa using this
      rw [minKey_cons x (u :: us) hxs]
      show (sortIns x (sortTracks (u :: us))).head? = _
      rw [head_sortIns, hs]
      simp only [List.head?]
      rcases le_or_lt (trackKey x) (minKey (u :: us)) with hle | hlt
      · rw [if_pos (hh0key ▸ hle)]
        have hmin : min (trackKey x) (minKey (u :: us)) = trackKey x := by omega
        rw [hmin, List.find?]
        simp
      · rw [if_neg (by omega : ¬ trackKey x ≤ trackKey h0)]
        have hmin : min (trackKey x) (minKey (u :: us)) = minKey (u :: us) := by omega
        rw [hmin, List.find?]
        have : (trackKey x == minKey (u :: us)) = false := by
          simp; omega
        rw [this]
        exact hh0.symm

def enManualTrack : CaptionTrack := ⟨chars "en", none, chars "url-a"⟩
def enAutoTrack : CaptionTrack := ⟨chars "en", some (chars "asr"), chars "url-b"⟩
def frManualTrack : CaptionTrack := ⟨chars "fr", none, chars "url-c"⟩

/-- The six orders in which the three example tracks can be presented. -/
def examplePerms : List (List CaptionTrack) :=
  [[enManualTrack, enAutoTrack, frManualTrack],
   [enManualTrack, frManualTrack, enAutoTrack],
   [enAutoTrack, enManualTrack, frManualTrack],
   [enAutoTrack, frManualTrack, enManualTrack],
   [frManualTrack, enManualTrack, enAutoTrack],
   [frManualTrack, enAutoTrack, enManualTrack]]

/-- C5: for every non-empty track list, `selectBestTrack` returns exactly
one track — the first track (in list order) of the highest-priority
non-empty class under `trackKey` (manual English < manual other <
auto English < auto other); in particular each of the six orders of
{en manual, en auto, fr manual} yields the manual English track. -/
theorem selectBestTrack_spec :
    (∀ ts : List CaptionTrack, ts ≠ [] →
        selectBestTrack ts = ts.find? (fun t => trackKey t == minKey ts) ∧
        ∃ t, selectBestTrack ts = some t) ∧
    (∀ ts ∈ examplePerms, selectBestTrack ts = some enManualTrack) := by
  constructor
  · intro ts hne
    refine ⟨selectBestTrack_eq_firstMin ts hne, ?_⟩
    rcases minKey_attained ts hne with ⟨t, ht, hkey⟩
    rw [selectBestTrack_eq_firstMin ts hne]
    have : (ts.find? (fun t => trackKey t == minKey ts)).isSome := by
      rw [List.find?_isSome]
      exact ⟨t, ht, by simp [hkey]⟩
    rcases Option.isSome_iff_exists.mp this with ⟨t0, ht0⟩
    exact ⟨t0, ht0⟩
  · decide

/-- Witness for C5: applied to the concrete singleton `[fr manual]` and to
the first example permutation. -/
theorem selectBestTrack_spec_witness :
    (selectBestTrack [frManualTrack] =
        [frManualTrack].find? (fun t => trackKey t == minKey [frManualTrack]) ∧
      ∃ t, selectBestTrack [frManualTrack] = some t) ∧
    selectBestTrack [enAutoTrack, frManualTrack, enManualTrack] = some enManualTrack :=
  ⟨selectBestTrack_spec.1 [frManualTrack] (by decide),
   selectBestTrack_spec.2 [enAutoTrack, frManualTrack, enManualTrack] (by decide)⟩

-- ---------------------------------------------------------------------------
-- src/storage.ts — `normalizeUrl`
-- ---------------------------------------------------------------------------

/-- A character of the regex class `[a-zA-Z0-9_-]` (a YouTube video-id character). -/
def idChar (c : Char) : Bool := c.isAlpha || c.isDigit || c == '_' || c == '-'

/-- Match `([a-zA-Z0-9_-]{11})` at the start of `s`: exactly 11 id characters. -/
def take11Id (s : Str) : Option Str :=
  let pre := s.take 11
  if pre.length = 11 ∧ pre.all idChar = true then some pre else none

/-- Backtracking for `watch\?.*v=` followed by the 11-character id: `.*` is
greedy, so the match uses the largest `k` such that the first `k` characters
contain no newline, `v=` follows, and 11 id characters follow that. -/
def watchVGo (r : Str) : Nat → Option Str
  | 0 =>
    if leadsWith (chars "v=") r = true then take11Id (r.drop 2) else none
  | k + 1 =>
    if (r.take (k + 1)).all (fun c => c != '\n') = true ∧
        leadsWith (chars "v=") (r.drop (k + 1)) = true then
      match take11Id (r.drop (k + 1 + 2)) with
      | some v => some v
      | none => watchVGo r k
    else watchVGo r k

def watchV (r : Str) : Option Str := watchVGo r r.length

/-- One position of the YouTube-id regex of `normalizeUrl` (src/storage.ts:13-15):
`(?:youtube\.com\/(?:watch\?.*v=|shorts\/|live\/)|youtu\.be\/)([a-zA-Z0-9_-]{11})`
anchored at the start of `s`; returns the captured video id. -/
def ytAt (s : Str) : Option Str :=
  if leadsWith (chars "youtube.com/") s = true then
    let r := s.drop 12
    if leadsWith (chars "watch?") r = true then
      match watchV (r.drop 6) with
      | some v => some v
      | none =>
        if leadsWith (chars "shorts/") r = true then take11Id (r.drop 7)
        else if leadsWith (chars "live/") r = true then take11Id (r.drop 5)
        else none
    else if leadsWith (chars "shorts/") r = true then take11Id (r.drop 7)
    else if leadsWith (chars "live/") r = true then take11Id (r.drop 5)
    else none
  else if leadsWith (chars "youtu.be/") s = true then take11Id (s.drop 9)
  else none

/-- Leftmost match of the YouTube-id regex: `url.match(...)` scans positions
left to right. -/
def ytScan : Str → Option Str
  | [] => none
  | c :: cs =>
    match ytAt (c :: cs) with
    | some v => some v
    | none => ytScan cs

/-- Scheme characters of the restricted URL grammar (lowercase letters:
the grammar only admits URLs on which the WHATWG serializer is the identity,
so schemes are already lowercase). -/
def schemeChar (c : Char) : Bool := c.isLower

/-- Host characters of the restricted URL grammar (already-lowercase hosts,
no port, no credentials, no percent-encoding). -/
def hostChar (c : Char) : Bool := c.isLower || c.isDigit || c == '.' || c == '-'

/-- Path/query characters the WHATWG serializer passes through unchanged. -/
def tailChar (c : Char) : Bool :=
  c.isAlphanum || c == '/' || c == '?' || c == '=' || c == '&' ||
    c == '-' || c == '_' || c == '.' || c == '~' || c == '+'

/-- A parsed URL of the restricted grammar: `scheme://host` followed by
`tail` (path and query, free of `#`) and, when a `#` is present, the
fragment after it. -/
structure WebUrl where
  scheme : Str
  host : Str
  tail : Str
  frag : Str
deriving DecidableEq, Repr

/-- Model of the JavaScript `new URL(url)` constructor on the restricted
grammar: URLs with a lowercase scheme, a lowercase port-free host and a
path/query the serializer does not rewrite (no dot-segments, no characters
needing percent-encoding). On this domain parse-then-serialize is the
identity up to the `/`-for-empty-path rule, matching the WHATWG behaviour
the code observes; other inputs are out of the model (`none`). -/
def parseUrl (s : Str) : Option WebUrl :=
  let scheme := s.takeWhile schemeChar
  let rest1 := s.drop scheme.length
  if scheme ≠ [] ∧ leadsWith (chars "://") rest1 = true then
    let rest2 := rest1.drop 3
    let host := rest2.takeWhile hostChar
    let rest3 := rest2.drop host.length
    if host ≠ [] ∧
        (rest3 = [] ∨ rest3.head? = some '/' ∨ rest3.head? = some '?' ∨ rest3.head? = some '#') then
      let tail := rest3.takeWhile (fun c => c != '#')
      if tail.all tailChar = true ∧ hasSub (chars "/.") tail = false then
        some ⟨scheme, host, tail, (rest3.drop tail.length).drop 1⟩
      else none
    else none
  else none

/-- WHATWG serialization of a parsed URL after `u.hash = ""` (the fragment
is dropped; an empty path serializes as `/`). -/
def serializeNoHash (u : WebUrl) : Str :=
  u.scheme ++ chars "://" ++ u.host ++
    (if u.tail = [] then chars "/"
     else if u.tail.head? = some '?' then chars "/" ++ u.tail
     else u.tail)

/-- `if (normalized.endsWith("/")) normalized = normalized.slice(0, -1)`
(src/storage.ts:23): remove a single trailing slash. -/
def stripOneSlash (s : Str) : Str :=
  if trailsWith (chars "/") s = true then s.dropLast else s

/-- `normalizeUrl` (src/storage.ts:11-28): YouTube URLs collapse to
`yt:<id>`; other URLs are serialized without their fragment and lose one
trailing slash; unparseable URLs are returned unchanged. -/
def normalizeUrl (url : Str) : Str :=
  match ytScan url with
  | some vid => chars "yt:" ++ vid
  | none =>
    match parseUrl url with
    | some u => stripOneSlash (serializeNoHash u)
    | none => url

-- Generic facts about the embedded string operations -------------------------

theorem leadsWith_iff (p : Str) : ∀ s : Str, leadsWith p s = true ↔ ∃ r, s = p ++ r := by
  induction p with
  | nil => intro s; simp [leadsWith]
  | cons a ps ih =>
    intro s
    cases s with
    | nil => simp [leadsWith]
    | cons c cs =>
      simp only [leadsWith, Bool.and_eq_true, beq_iff_eq, ih cs, List.cons_append]
      constructor
      · rintro ⟨rfl, r, rfl⟩; exact ⟨r, rfl⟩
      · rintro ⟨r, h⟩
        injection h with h1 h2
        exact ⟨h1.symm, r, h2⟩

theorem leadsWith_append (p r : Str) : leadsWith p (p ++ r) = true :=
  (leadsWith_iff p (p ++ r)).mpr ⟨r, rfl⟩

/-- A browser tab as listed over CDP (src/cdp.ts:4-8). -/
structure Tab where
  id : Str
  title : Str
  url : Str
deriving DecidableEq, Repr

/-- `findTabByUrl` (src/cdp.ts:24-26):
`tabs.find((t) => t.url === url || t.url.startsWith(url))` — the first tab
whose URL equals the request or extends it. -/
def findTabByUrl (tabs : List Tab) (url : Str) : Option Tab :=
  tabs.find? (fun t => t.url == url || leadsWith url t.url)

/-- C8 counterexample: the tab URL `https://a.com/p` is a proper prefix of
the requested URL `https://a.com/p?x=1`, so the claim says the tab matches;
the code matches in the opposite direction and finds nothing. -/
theorem findTabByUrl_cex :
    leadsWith (chars "https://a.com/p") (chars "https://a.com/p?x=1") = true ∧
    chars "https://a.com/p" ≠ chars "https://a.com/p?x=1" ∧
    findTabByUrl [⟨chars "1", chars "T", chars "https://a.com/p"⟩]
      (chars "https://a.com/p?x=1") = none := by
  refine ⟨by decide, by decide, by decide⟩

/-- C8 (amended): a tab matches exactly when its URL equals the requested
URL or the requested URL is a prefix of the tab's URL; the first matching
tab in list order is returned, and `none` exactly when no tab matches. -/
theorem findTabByUrl_spec (tabs : List Tab) (url : Str) :
    (findTabByUrl tabs url = none ↔
      ∀ t ∈ tabs, ¬ (t.url = url ∨ leadsWith url t.url = true)) ∧
    (∀ t, findTabByUrl tabs url = some t →
      (t.url = url ∨ leadsWith url t.url = true) ∧
      ∃ pre post, tabs = pre ++ t :: post ∧
        ∀ t' ∈ pre, ¬ (t'.url = url ∨ leadsWith url t'.url = true)) := by
  induction tabs with
  | nil => exact ⟨by simp [findTabByUrl], by intro t h; simp [findTabByUrl] at h⟩
  | cons a ts ih =>
    have hpred : ∀ t : Tab, (t.url == url || leadsWith url t.url) = true ↔
        (t.url = url ∨ leadsWith url t.url = true) := by
      intro t; simp [Bool.or_eq_true, beq_iff_eq]
    by_cases hp : (a.url == url || leadsWith url a.url) = true
    · have ha := (hpred a).mp hp
      have hfind : findTabByUrl (a :: ts) url = some a := by
        simp [findTabByUrl, List.find?, hp]
      constructor
      · constructor
        · intro h
          rw [hfind] at h
          exact absurd h (by simp)
        · intro hall
          exact absurd ha (hall a (by simp))
      · intro t ht
        rw [hfind] at ht
        cases Option.some.inj ht
        exact ⟨ha, [], ts, rfl, by simp⟩
    · have hna : ¬ (a.url = url ∨ leadsWith url a.url = true) := fun hc => hp ((hpred a).mpr hc)
      have hp' : (a.url == url || leadsWith url a.url) = false := by
        simpa using hp
      have hskip : findTabByUrl (a :: ts) url = findTabByUrl ts url := by
        simp [findTabByUrl, List.find?, hp']
      constructor
      · rw [hskip, ih.1]
        constructor
        · intro h t ht
          rcases List.mem_cons.mp ht with rfl | ht
          · exact hna
          · exact h t ht
        · intro h t ht
          exact h t (by simp [ht])
      · intro t ht
        rw [hskip] at ht
        obtain ⟨hmatch, pre, post, hsplit, hpre⟩ := ih.2 t ht
        refine ⟨hmatch, a :: pre, post, by rw [hsplit]; rfl, ?_⟩
        intro t' ht'
        rcases List.mem_cons.mp ht' with rfl | ht'
        · exact hna
        · exact hpre t' ht'

/-- Witness for C8: on a concrete tab list, the first conjunct's
characterization and the match property of the returned tab. -/
theorem findTabByUrl_spec_witness :
    (chars "https://b.com/x" = chars "https://b.com" ∨
      leadsWith (chars "https://b.com") (chars "https://b.com/x") = true) :=
  ((findTabByUrl_spec [⟨chars "2", chars "U", chars "https://b.com/x"⟩]
      (chars "https://b.com")).2
    ⟨chars "2", chars "U", chars "https://b.com/x"⟩ (by decide)).1

-- ---------------------------------------------------------------------------
-- src/storage.ts — artifacts, frontmatter parsing, `findByUrl`
-- ---------------------------------------------------------------------------

/-- JavaScript `text.split("\n")`. -/
def splitLines : Str → List Str
  | [] => [[]]
  | c :: cs =>
    if c = '\n' then [] :: splitLines cs
    else
      match splitLines cs with
      | [] => [[c]]
      | l :: ls => (c :: l) :: ls

/-- The `/^url:\s*(.+)$/m` frontmatter lookup followed by `.trim()`
(src/storage.ts:39-41): the first line starting with `url:` and having at
least one further character yields that remainder trimmed (`\s*(.+)` plus
`trim` amount to trimming the remainder). -/
def urlLineValue (text : Str) : Option Str :=
  match (splitLines text).find? (fun l => leadsWith (chars "url:") l && decide (4 < l.length)) with
  | some l => some (jsTrim (l.drop 4))
  | none => none

/-- One line against `/^title:\s*"(.+)"$/`: after `title:` and optional
whitespace, a double quote, a non-empty greedy capture, and a closing double
quote at the end of the line. -/
def titleOfLine (l : Str) : Option Str :=
  if leadsWith (chars "title:") l = true then
    match (l.drop 6).dropWhile isWs with
    | '"' :: rest =>
      if rest.getLast? = some '"' ∧ 2 ≤ rest.length then some rest.dropLast else none
    | _ => none
  else none

/-- The `/^title:\s*"(.+)"$/m` lookup of `getCachedResult` (src/run.ts:45):
first matching line wins. -/
def titleOf (text : Str) : Option Str :=
  (splitLines text).findSome? titleOfLine

/-- The suffix of `s` after the first occurrence of `pat` (`none` when `pat`
does not occur). -/
def splitAfterFirst (pat : Str) : Str → Option Str
  | [] => if pat = [] then some [] else none
  | c :: cs =>
    if leadsWith pat (c :: cs) = true then some ((c :: cs).drop pat.length)
    else splitAfterFirst pat cs

/-- `text.replace(/^---[\s\S]*?---\n*/, "")` (src/run.ts:44): when the text
starts with `---`, drop everything up to and including the first following
`---` and any newlines after it; otherwise the regex does not match and the
text is unchanged. -/
def stripFrontmatter (s : Str) : Str :=
  if leadsWith (chars "---") s = true then
    match splitAfterFirst (chars "---") (s.drop 3) with
    | some rest => rest.dropWhile (fun c => c == '\n')
    | none => s
  else s

/-- The summary body `getCachedResult` returns: frontmatter stripped, then
trimmed (src/run.ts:44). -/
def bodyOf (s : Str) : Str := jsTrim (stripFrontmatter s)

/-- JavaScript `s.replace(pat, "")` for a literal pattern: remove the first
occurrence (used for `file.replace(".md", "")`, src/storage.ts:43). -/
def removeFirst (pat : Str) : Str → Str
  | [] => []
  | c :: cs =>
    if pat ≠ [] ∧ leadsWith pat (c :: cs) = true then (c :: cs).drop pat.length
    else c :: removeFirst pat cs

/-- A stored article file: its name in `articles/`, its creation time (never
read by the code — readdir reports names only; kept to state the spec's
"most recently created"), and its text. The list order of a `List Artifact`
is the directory listing order `readdir` returns, which the platform does
not correlate with creation time. -/
structure Artifact where
  name : Str
  ctime : Nat
  content : Str
deriving DecidableEq, Repr

/-- `files.filter((f) => f.endsWith(".md"))` (src/storage.ts:35). -/
def isMdFile (a : Artifact) : Bool := trailsWith (chars ".md") a.name

/-- The loop body test of `findByUrl` (src/storage.ts:39-42): the file's
frontmatter `url:` line, normalized, equals the needle. -/
def urlKeyMatches (needle : Str) (a : Artifact) : Bool :=
  match urlLineValue a.content with
  | some su => normalizeUrl su == needle
  | none => false

/-- `findByUrl` (src/storage.ts:31-51): scan the directory listing in order,
keep `.md` files, and return the slug of the first whose stored URL
normalizes to the needle. -/
def findByUrl (articles : List Artifact) (url : Str) : Option Str :=
  ((articles.filter isMdFile).find? (urlKeyMatches (normalizeUrl url))).map
    (fun a => removeFirst (chars ".md") a.name)

/-- The combined per-artifact match test of `findByUrl`. -/
def artifactMatches (url : Str) (a : Artifact) : Bool :=
  isMdFile a && urlKeyMatches (normalizeUrl url) a

/-- `findByUrl(url, type)` as called from src/run.ts:40: `storage.findByUrl`
declares a single parameter, so JavaScript call semantics discard the extra
`type` argument. -/
def findByUrlK (articles : List Artifact) (url : Str) (kind : Option Str) : Option Str :=
  findByUrl articles url

/-- Follows the spec's words ("lookups must tolerate duplicates … by
preferring the most recently created"), for comparison with `findByUrl`:
the matching artifact with the greatest creation time. -/
def specMostRecentMatch (articles : List Artifact) (url : Str) : Option Artifact :=
  (articles.filter (artifactMatches url)).foldl
    (fun best a =>
      match best with
      | none => some a
      | some b => if b.ctime < a.ctime then some a else some b) none

theorem find?_filter_fuse {α : Type} (q p : α → Bool) :
    ∀ l : List α, (l.filter q).find? p = l.find? (fun a => q a && p a) := by
  intro l
  induction l with
  | nil => rfl
  | cons a as ih =>
    by_cases hq : q a = true
    · by_cases hp : p a = true
      · simp [List.filter, List.find?, hq, hp]
      · have hp' : p a = false := by simpa using hp
        simp [List.filter, List.find?, hq, hp', ih]
    · have hq' : q a = false := by simpa using hq
      simp [List.filter, List.find?, hq', ih]

theorem find?_first_split {α : Type} (p : α → Bool) :
    ∀ l : List α,
      (l.find? p = none ↔ ∀ a ∈ l, p a = false) ∧
      (∀ a, l.find? p = some a →
        p a = true ∧ ∃ pre post, l = pre ++ a :: post ∧ ∀ b ∈ pre, p b = false) := by
  intro l
  induction l with
  | nil => exact ⟨by simp, by intro a h; simp at h⟩
  | cons x xs ih =>
    by_cases hx : p x = true
    · have hfind : (x :: xs).find? p = some x := by simp [List.find?, hx]
      refine ⟨⟨fun h => absurd h (by simp [hfind]), fun h => absurd hx (by simp [h x (List.mem_cons_self x xs)]) ⟩, ?_⟩
      · intro a ha
        rw [hfind] at ha
        cases Option.some.inj ha
        exact ⟨hx, [], xs, rfl, by simp⟩
    · have hx' : p x = false := by simpa using hx
      have hskip : (x :: xs).find? p = xs.find? p := by simp [List.find?, hx']
      refine ⟨?_, ?_⟩
      · rw [hskip, ih.1]
        constructor
        · intro h a ha
          rcases List.mem_cons.mp ha with rfl | ha
          · exact hx'
          · exact h a ha
        · intro h a ha
          exact h a (by simp [ha])
      · intro a ha
        rw [hskip] at ha
        obtain ⟨hpa, pre, post, hsplit, hpre⟩ := ih.2 a ha
        refine ⟨hpa, x :: pre, post, by rw [hsplit]; rfl, ?_⟩
        intro b hb
        rcases List.mem_cons.mp hb with rfl | hb
        · exact hx'
        · exact hpre b hb

theorem findByUrl_via_matches (articles : List Artifact) (url : Str) :
    findByUrl articles url =
      (articles.find? (artifactMatches url)).map (fun a => removeFirst (chars ".md") a.name) := by
  rw [findByUrl, find?_filter_fuse]
  rfl

/-- C7 counterexample: two stored artifacts match the needle; the first in
directory-listing order was created first (`ctime` 1 < 2), yet `findByUrl`
returns it rather than the most recently created one. -/
theorem findByUrl_cex :
    findByUrl
        [⟨chars "2024-01-01_old.md", 1, chars "---\ntitle: \"Old\"\nurl: https://a.com/x\n---\nbody one"⟩,
         ⟨chars "2024-01-02_new.md", 2, chars "---\ntitle: \"New\"\nurl: https://a.com/x/\n---\nbody two"⟩]
        (chars "https://a.com/x") = some (chars "2024-01-01_old") ∧
    (specMostRecentMatch
        [⟨chars "2024-01-01_old.md", 1, chars "---\ntitle: \"Old\"\nurl: https://a.com/x\n---\nbody one"⟩,
         ⟨chars "2024-01-02_new.md", 2, chars "---\ntitle: \"New\"\nurl: https://a.com/x/\n---\nbody two"⟩]
        (chars "https://a.com/x")).map (fun a => removeFirst (chars ".md") a.name) =
      some (chars "2024-01-02_new") ∧
    (chars "2024-01-01_old" : Str) ≠ chars "2024-01-02_new" := by
  refine ⟨by decide, by decide, by decide⟩

/-- C7 (amended): `findByUrl` returns the slug of the FIRST artifact in
directory-listing order whose stored URL normalizes to the needle
(creation time is never consulted), and `none` exactly when no artifact
matches. -/
theorem findByUrl_spec (articles : List Artifact) (url : Str) :
    (findByUrl articles url = none ↔ ∀ a ∈ articles, artifactMatches url a = false) ∧
    (∀ s, findByUrl articles url = some s →
      ∃ pre a post, articles = pre ++ a :: post ∧ artifactMatches url a = true ∧
        s = removeFirst (chars ".md") a.name ∧ ∀ b ∈ pre, artifactMatches url b = false) := by
  rw [findByUrl_via_matches]
  obtain ⟨h1, h2⟩ := find?_first_split (artifactMatches url) articles
  constructor
  · rw [Option.map_eq_none', h1]
  · intro s hs
    rw [Option.map_eq_some'] at hs
    obtain ⟨a, ha, hslug⟩ := hs
    obtain ⟨hpa, pre, post, hsplit, hpre⟩ := h2 a ha
    exact ⟨pre, a, post, hsplit, hpa, hslug.symm, hpre⟩

/-- Witness for C7's amended theorem on the duplicate store: the first-listed
artifact is the returned one. -/
theorem findByUrl_spec_witness :
    ∃ pre a post,
      ([⟨chars "2024-01-01_old.md", 1, chars "---\ntitle: \"Old\"\nurl: https://a.com/x\n---\nbody one"⟩,
        ⟨chars "2024-01-02_new.md", 2, chars "---\ntitle: \"New\"\nurl: https://a.com/x/\n---\nbody two"⟩]
        : List Artifact) = pre ++ a :: post ∧
      artifactMatches (chars "https://a.com/x") a = true ∧
      chars "2024-01-01_old" = removeFirst (chars ".md") a.name ∧
      ∀ b ∈ pre, artifactMatches (chars "https://a.com/x") b = false :=
  (findByUrl_spec
      [⟨chars "2024-01-01_old.md", 1, chars "---\ntitle: \"Old\"\nurl: https://a.com/x\n---\nbody one"⟩,
       ⟨chars "2024-01-02_new.md", 2, chars "---\ntitle: \"New\"\nurl: https://a.com/x/\n---\nbody two"⟩]
      (chars "https://a.com/x")).2 (chars "2024-01-01_old") (by decide)

-- ---------------------------------------------------------------------------
-- src/run.ts — `getCachedResult` over the persisted store
-- ---------------------------------------------------------------------------

/-- The persisted storage a run observes: the `articles/` directory listing,
the `summaries/` files keyed by slug, and the HTML output directory path. -/
structure Store where
  articles : List Artifact
  summaries : List (Str × Str)
  htmlDir : Str
deriving Repr

/-- `readSummaryFile` (src/storage.ts:133-140): the summary file's text, or
`none` when it does not exist. -/
def readSummaryFile (store : Store) (slug : Str) : Option Str :=
  (store.summaries.find? (fun e => e.1 == slug)).map (fun e => e.2)

/-- `SummarizeResult` (src/run.ts:31-37); an absent `cached` field is the
`false` of the model. -/
structure SummarizeResult where
  slug : Str
  title : Str
  summary : Str
  htmlPath : Str
  cached : Bool
deriving DecidableEq, Repr

/-- `getCachedResult` (src/run.ts:39-54): look the URL up (the `type`
argument is discarded by `findByUrl`, see `findByUrlK`), read the summary
file, strip its frontmatter and answer a cached result. -/
def getCachedResult (store : Store) (url : Str) (kind : Option Str) : Option SummarizeResult :=
  match findByUrlK store.articles url kind with
  | none => none
  | some slug =>
    match readSummaryFile store slug with
    | none => none
    | some summaryText =>
      some { slug := slug,
             title := (titleOf summaryText).getD slug,
             summary := bodyOf summaryText,
             htmlPath := store.htmlDir ++ chars "/" ++ slug ++ chars ".html",
             cached := true }

/-- The frontmatter `type:` field of a stored artifact, read back the same
way `findByUrl` reads `url:` — used to state what kind of artifact a lookup
returned. -/
def typeLineValue (text : Str) : Option Str :=
  match (splitLines text).find? (fun l => leadsWith (chars "type:") l && decide (5 < l.length)) with
  | some l => some (jsTrim (l.drop 5))
  | none => none

/-- `getRootUrl` (src/site.ts:251-254): `${u.protocol}//${u.host}` of the
parsed URL. -/
def getRootUrl (url : Str) : Option Str :=
  (parseUrl url).map (fun w => w.scheme ++ chars "://" ++ w.host)

/-- A concrete store holding one artifact of stored type `web` whose URL is
a site root. -/
def webTypedStore : Store :=
  { articles :=
      [⟨chars "2024-01-03_site.md", 3,
        chars "---\ntitle: \"Site\"\nurl: https://a.com\ndate: d\ntype: web\nwords: 5\n---\n\nbody"⟩],
    summaries :=
      [(chars "2024-01-03_site", chars "---\ntitle: \"Site\"\n---\n\nSummary text")],
    htmlDir := chars "/home/u/.elsummariz00r/html" }

/-- C10: `findByUrl` ignores its second (kind) argument — the two-argument
call of src/run.ts:40 equals the one-argument lookup for every kind — and
consequently the `"site"`-restricted lookup of `runSummarizeSite`
(src/run.ts:169) can return an artifact whose stored `type:` is `web` when
that artifact's URL normalizes to the site's root URL. -/
theorem findByUrlK_ignores_kind :
    (∀ (articles : List Artifact) (url : Str) (kind : Option Str),
        findByUrlK articles url kind = findByUrl articles url) ∧
    (getRootUrl (chars "https://a.com/deep/page") = some (chars "https://a.com") ∧
      (getCachedResult webTypedStore (chars "https://a.com") (some (chars "site"))).isSome = true ∧
      ∃ a ∈ webTypedStore.articles,
        artifactMatches (chars "https://a.com") a = true ∧
        typeLineValue a.content = some (chars "web")) :=
  ⟨fun _ _ _ => rfl, by decide, by decide⟩

/-- Witness for C10 applied at a concrete argument triple. -/
theorem findByUrlK_ignores_kind_witness :
    findByUrlK webTypedStore.articles (chars "https://a.com") (some (chars "site")) =
      findByUrl webTypedStore.articles (chars "https://a.com") :=
  findByUrlK_ignores_kind.1 webTypedStore.articles (chars "https://a.com") (some (chars "site"))

-- ---------------------------------------------------------------------------
-- src/run.ts — `runSummarize` with its collaborators as explicit data
-- ---------------------------------------------------------------------------

/-- `isYouTube` (src/youtube.ts:11-13): the test of
`/youtube\.com\/watch|youtu\.be\//` is substring containment of either
alternative. -/
def isYouTube (url : Str) : Bool :=
  hasSub (chars "youtube.com/watch") url || hasSub (chars "youtu.be/") url

/-- One position of the `extractVideoId` regex (src/youtube.ts:15-20):
`(?:youtube\.com\/watch\?.*v=|youtu\.be\/)([a-zA-Z0-9_-]{11})`. -/
def vidAt (s : Str) : Option Str :=
  if leadsWith (chars "youtube.com/watch?") s = true then watchV (s.drop 18)
  else if leadsWith (chars "youtu.be/") s = true then take11Id (s.drop 9)
  else none

/-- `extractVideoId` (src/youtube.ts:15-20): leftmost match. -/
def extractVideoId : Str → Option Str
  | [] => none
  | c :: cs =>
    match vidAt (c :: cs) with
    | some v => some v
    | none => extractVideoId cs

/-- `CaptionResult` (src/youtube.ts:4-9). -/
structure CaptionResult where
  title : Str
  transcript : Str
  segments : Nat
  words : Nat
deriving DecidableEq, Repr

/-- The metadata record passed to the summarization oracle
(`summarize(content, { title, url, type })`). -/
structure OracleMeta where
  title : Str
  url : Str
  type : Str
deriving DecidableEq, Repr

/-- The effectful collaborators of a run: the browser's tab list, text
extraction and tab opening, the caption fetcher (`none` models a thrown
extraction error), the summarization oracle, and today's date string used
by `generateSlug`. -/
structure Env where
  tabs : List Tab
  extractText : Str → Str
  openUrl : Str → Option Tab
  captions : Str → Option CaptionResult
  oracle : Str → OracleMeta → Str
  today : Str

/-- JavaScript `toLowerCase` on the ASCII range. -/
def jsToLower (s : Str) : Str := s.map Char.toLower

/-- `replace(/\s+/g, r)`: each maximal whitespace run becomes the single
character `r`; `inRun` records whether the previous character was
whitespace. -/
def wsRunsToGo (r : Char) : Bool → Str → Str
  | _, [] => []
  | inRun, c :: cs =>
    if isWs c = true then
      if inRun then wsRunsToGo r true cs else r :: wsRunsToGo r true cs
    else c :: wsRunsToGo r false cs

def wsRunsTo (r : Char) (s : Str) : Str := wsRunsToGo r false s

/-- The hyphen-run collapse (the regexp with pattern "one or more hyphens",
globally replaced by a single hyphen, src/storage.ts:65). -/
def hyphenGo : Bool → Str → Str
  | _, [] => []
  | inRun, c :: cs =>
    if c = '-' then
      if inRun then hyphenGo true cs else '-' :: hyphenGo true cs
    else c :: hyphenGo false cs

def hyphenRunsCollapse (s : Str) : Str := hyphenGo false s

/-- `generateSlug` (src/storage.ts:59-69) with the date supplied by the
caller: lowercase, keep `[a-z0-9\s-]`, whitespace runs to hyphens, hyphen
runs collapsed, truncated to 60, one trailing hyphen removed, prefixed by
the date and `_`. -/
def generateSlug (today title : Str) : Str :=
  let sanitized :=
    hyphenRunsCollapse (wsRunsTo '-'
      ((jsToLower title).filter (fun c => c.isLower || c.isDigit || isWs c || c == '-')))
  let sliced := sanitized.take 60
  let final := if trailsWith (chars "-") sliced = true then sliced.dropLast else sliced
  today ++ chars "_" ++ final

/-- The `Meta` frontmatter record (src/storage.ts:71-76) with the
serialization date made explicit. -/
structure Meta where
  title : Str
  url : Str
  date : Str
  type : Str
  words : Nat
deriving DecidableEq, Repr

/-- `title.replace(/"/g, '\\"')` (src/storage.ts:80). -/
def escQ : Str → Str
  | [] => []
  | c :: cs => if c = '"' then '\\' :: '"' :: escQ cs else c :: escQ cs

def natToStr (n : Nat) : Str := (toString n).data

/-- The text of the frontmatter between its two `---` fences
(src/storage.ts:78-86). -/
def fmMid (m : Meta) : Str :=
  chars "\ntitle: \"" ++ escQ m.title ++ chars "\"\nurl: " ++ m.url ++
    chars "\ndate: " ++ m.date ++ chars "\ntype: " ++ m.type ++
    chars "\nwords: " ++ natToStr m.words ++ chars "\n"

def frontmatterOf (m : Meta) : Str := chars "---" ++ fmMid m ++ chars "---"

/-- `saveSummary` file content: `${frontmatter(meta)}\n\n${summary}`
(src/storage.ts:104). -/
def summaryFileContent (m : Meta) (summary : Str) : Str :=
  frontmatterOf m ++ chars "\n\n" ++ summary

/-- `resolveSourceUrl` (src/storage.ts:143-156): a `file://` URL into the
HTML output directory resolves back to the original URL recorded in the
matching article's frontmatter (empty recorded URLs count as absent). -/
def resolveSourceUrl (store : Store) (url : Str) : Option Str :=
  let htmlPre := chars "file://" ++ store.htmlDir ++ chars "/"
  if leadsWith htmlPre url = true then
    let slug := removeFirst (chars ".html") (url.drop htmlPre.length)
    if slug.contains '/' || slug.contains '\\' then none
    else
      match (store.articles.find? (fun a => a.name == slug ++ chars ".md")).map
          (fun a => a.content) with
      | some text =>
        match urlLineValue text with
        | some v => if v = [] then none else some v
        | none => none
      | none => none
  else none

/-- The options of `runSummarize` (src/run.ts:56-60). -/
structure SummOpts where
  url : Option Str
  title : Option Str
  redo : Bool

/-- The non-cached tail of `runSummarize` (src/run.ts:120-142): summarize,
build the slug and answer the fresh (non-cached) result. Persistence writes
the same data to disk and does not affect the returned value. -/
def freshResult (store : Store) (env : Env) (url content title type : Str) : SummarizeResult :=
  let summary := env.oracle content ⟨title, url, type⟩
  let slug := generateSlug env.today title
  { slug := slug, title := title, summary := summary,
    htmlPath := store.htmlDir ++ chars "/" ++ slug ++ chars ".html",
    cached := false }

/-- `runSummarize` (src/run.ts:56-143). JavaScript truthiness of
`targetUrl` is the non-emptiness of the string (an absent option and the
empty string are both falsy). -/
def runSummarize (opts : SummOpts) (store : Store) (env : Env) : Except Str SummarizeResult :=
  let t0 : Str := opts.url.getD []
  let t1 : Str :=
    if t0 ≠ [] then
      match resolveSourceUrl store t0 with
      | some src => src
      | none => t0
    else t0
  match (if t1 ≠ [] then Except.ok t1
         else match env.tabs.head? with
              | some t => Except.ok t.url
              | none => Except.error (chars "No browser tabs found")) with
  | Except.error e => Except.error e
  | Except.ok targetUrl =>
    match (if opts.redo then none else getCachedResult store targetUrl none) with
    | some cached => Except.ok cached
    | none =>
      if isYouTube targetUrl = true then
        match extractVideoId targetUrl with
        | none => Except.error (chars "Could not parse YouTube video ID")
        | some vid =>
          match env.captions vid with
          | none => Except.error (chars "caption extraction failed")
          | some res =>
            Except.ok (freshResult store env targetUrl res.transcript res.title (chars "youtube"))
      else
        match findTabByUrl env.tabs targetUrl with
        | some found =>
          Except.ok (freshResult store env targetUrl (env.extractText found.id)
            (opts.title.getD found.title) (chars "web"))
        | none =>
          match env.openUrl targetUrl with
          | none => Except.error (chars "Timed out waiting for page to load")
          | some opened =>
            Except.ok (freshResult store env targetUrl (env.extractText opened.id)
              (opts.title.getD opened.title) (chars "web"))

theorem leadsWith_eq_take (p s : Str) : leadsWith p s = true ↔ s.take p.length = p := by
  constructor
  · intro h
    rcases (leadsWith_iff p s).mp h with ⟨r, rfl⟩
    exact List.take_left p r
  · intro h
    have h2 := List.take_append_drop p.length s
    rw [h] at h2
    exact (leadsWith_iff p s).mpr ⟨s.drop p.length, h2.symm⟩

theorem take_app_le {α : Type} : ∀ (n : Nat) (s ext : List α), n ≤ s.length →
    (s ++ ext).take n = s.take n := by
  intro n
  induction n with
  | zero => intro s ext _; rfl
  | succ k ih =>
    intro s ext h
    cases s with
    | nil => simp at h
    | cons c cs =>
      simp only [List.cons_append, List.take]
      exact congrArg (c :: ·) (ih cs ext (by simpa using h))

theorem leadsWith_false_extend (p s ext : Str) (hlen : p.length ≤ s.length)
    (h : leadsWith p s = false) : leadsWith p (s ++ ext) = false := by
  by_contra hc
  rw [Bool.not_eq_false, leadsWith_eq_take, take_app_le p.length s ext hlen,
      ← leadsWith_eq_take, h] at hc
  exact Bool.false_ne_true hc

/-- When the only occurrence of `pat` in `A ++ pat ++ B` is the explicit
middle one (no occurrence starts inside `A`), `splitAfterFirst` yields `B`. -/
theorem splitAfterFirst_boundary (pat : Str) (hpat : pat ≠ []) :
    ∀ A B : Str, hasSub pat (A ++ pat.dropLast) = false →
      splitAfterFirst pat (A ++ (pat ++ B)) = some B := by
  intro A
  induction A with
  | nil =>
    intro B _
    cases hp : pat with
    | nil => exact absurd hp hpat
    | cons p ps =>
      show splitAfterFirst (p :: ps) ((p :: ps) ++ B) = some B
      show (if leadsWith (p :: ps) ((p :: ps) ++ B) = true then
          some (((p :: ps) ++ B).drop (p :: ps).length) else _) = some B
      rw [if_pos (leadsWith_append _ _), List.drop_left]
  | cons a A' ih =>
    intro B h
    simp only [List.cons_append, hasSub, Bool.or_eq_false_iff] at h
    have hlead : leadsWith pat (a :: (A' ++ (pat ++ B))) = false := by
      have hshape : a :: (A' ++ (pat ++ B)) =
          (a :: (A' ++ pat.dropLast)) ++ ([pat.getLast hpat] ++ B) := by
        have hp2 : pat.dropLast ++ (pat.getLast hpat :: B) = pat ++ B := by
          rw [show pat.getLast hpat :: B = [pat.getLast hpat] ++ B from rfl,
              ← List.append_assoc, List.dropLast_concat_getLast hpat]
        simp only [List.cons_append, List.append_assoc, List.nil_append, hp2]
      rw [hshape]
      refine leadsWith_false_extend pat _ _ ?_ h.1
      have h1 : pat.dropLast.length = pat.length - 1 := List.length_dropLast pat
      have h2 : 1 ≤ pat.length := by
        cases pat with
        | nil => exact absurd rfl hpat
        | cons _ _ => simp
      simp only [List.length_cons, List.length_append, h1]
      omega
    show (if leadsWith pat (a :: (A' ++ (pat ++ B))) = true then _ else
        splitAfterFirst pat (A' ++ (pat ++ B))) = some B
    rw [hlead]
    simp only [Bool.false_eq_true, if_false]
    exact ih B h.2

theorem drop3_dash (x : Str) : (chars "---" ++ x).drop 3 = x := rfl

theorem dropWhile_nl_of_head (S : Str) (hS : S.head? ≠ some '\n') :
    S.dropWhile (fun c => c == '\n') = S := by
  cases S with
  | nil => rfl
  | cons c cs =>
    have : (c == '\n') = false := by
      rw [beq_eq_false_iff_ne]
      intro hc
      exact hS (by rw [hc]; rfl)
    simp [List.dropWhile, this]

/-- Stripping the frontmatter of a summary file recovers the stored summary,
provided the frontmatter holds no stray `---` and the summary does not start
with a newline. -/
theorem stripFrontmatter_content (m : Meta) (S : Str)
    (hfence : hasSub (chars "---") (fmMid m ++ chars "--") = false)
    (hS : S.head? ≠ some '\n') :
    stripFrontmatter (summaryFileContent m S) = S := by
  have hshape : summaryFileContent m S =
      chars "---" ++ (fmMid m ++ (chars "---" ++ (chars "\n\n" ++ S))) := by
    simp only [summaryFileContent, frontmatterOf, List.append_assoc]
  rw [hshape, stripFrontmatter]
  rw [if_pos (leadsWith_append _ _), drop3_dash]
  rw [splitAfterFirst_boundary (chars "---") (by decide) (fmMid m) (chars "\n\n" ++ S)
      (by rw [show (chars "---").dropLast = chars "--" from rfl]; exact hfence)]
  show (chars "\n\n" ++ S).dropWhile (fun c => c == '\n') = S
  show ('\n' :: ('\n' :: S)).dropWhile (fun c => c == '\n') = S
  rw [List.dropWhile_cons_of_pos (by rfl), List.dropWhile_cons_of_pos (by rfl)]
  exact dropWhile_nl_of_head S hS

/-- C3: without the redo flag, when a stored artifact matches the URL's
canonical key and its summary file exists, `runSummarize` answers the stored
summary body unchanged, marked cached — and the outcome is the same for
every extractor/oracle environment (no extraction, no oracle call can
influence it). -/
theorem runSummarize_cached (opts : SummOpts) (store : Store) (env : Env)
    (u slug txt : Str) (m : Meta) (S : Str)
    (hredo : opts.redo = false)
    (hurl : opts.url = some u)
    (hune : u ≠ [])
    (hres : resolveSourceUrl store u = none)
    (hfind : findByUrl store.articles u = some slug)
    (hsum : readSummaryFile store slug = some txt)
    (htxt : txt = summaryFileContent m S)
    (hfence : hasSub (chars "---") (fmMid m ++ chars "--") = false)
    (hS1 : S.head? ≠ some '\n')
    (hS2 : jsTrim S = S) :
    runSummarize opts store env =
      Except.ok { slug := slug, title := (titleOf txt).getD slug, summary := S,
                  htmlPath := store.htmlDir ++ chars "/" ++ slug ++ chars ".html",
                  cached := true } ∧
    ∀ env' : Env, runSummarize opts store env' = runSummarize opts store env := by
  have hbody : bodyOf txt = S := by
    rw [htxt, bodyOf, stripFrontmatter_content m S hfence hS1, hS2]
  have hcached : getCachedResult store u none = some
      { slug := slug, title := (titleOf txt).getD slug, summary := S,
        htmlPath := store.htmlDir ++ chars "/" ++ slug ++ chars ".html", cached := true } := by
    have hbody2 : bodyOf (summaryFileContent m S) = S := by rw [← htxt]; exact hbody
    simp only [getCachedResult, findByUrlK, hfind, hsum, htxt, hbody2]
  have main : ∀ e : Env, runSummarize opts store e =
      Except.ok { slug := slug, title := (titleOf txt).getD slug, summary := S,
                  htmlPath := store.htmlDir ++ chars "/" ++ slug ++ chars ".html",
                  cached := true } := by
    intro e
    simp only [runSummarize, hurl, Option.getD_some, ne_eq, hune, not_false_eq_true, if_true,
      ite_true, hres, hredo, Bool.false_eq_true, if_false, ite_false, hcached]
  exact ⟨main env, fun env' => (main env').trans (main env).symm⟩

/-- The concrete metadata, summary, store and environment of the C3 witness. -/
def c3meta : Meta :=
  ⟨chars "Cached Page", chars "https://a.com/x", chars "2024-01-01T00:00:00.000Z", chars "web", 42⟩

def c3body : Str := chars "Hello world summary."

def c3store : Store :=
  { articles := [⟨chars "2024-01-01_cached-page.md", 1,
      chars "---\ntitle: \"Cached Page\"\nurl: https://a.com/x\ndate: 2024-01-01T00:00:00.000Z\ntype: web\nwords: 42\n---\n\narticle body"⟩],
    summaries := [(chars "2024-01-01_cached-page", summaryFileContent c3meta c3body)],
    htmlDir := chars "/h/html" }

def c3env : Env :=
  { tabs := [], extractText := fun _ => [], openUrl := fun _ => none,
    captions := fun _ => none, oracle := fun _ _ => [], today := chars "2024-01-02" }

def c3opts : SummOpts := ⟨some (chars "https://a.com/x"), none, false⟩

/-- Witness for C3 on a concrete store holding one cached artifact. -/
theorem runSummarize_cached_witness :
    runSummarize c3opts c3store c3env =
      Except.ok { slug := chars "2024-01-01_cached-page",
                  title := (titleOf (summaryFileContent c3meta c3body)).getD
                    (chars "2024-01-01_cached-page"),
                  summary := c3body,
                  htmlPath := c3store.htmlDir ++ chars "/" ++
                    chars "2024-01-01_cached-page" ++ chars ".html",
                  cached := true } ∧
    ∀ env' : Env, runSummarize c3opts c3store env' = runSummarize c3opts c3store c3env :=
  runSummarize_cached c3opts c3store c3env (chars "https://a.com/x")
    (chars "2024-01-01_cached-page") (summaryFileContent c3meta c3body) c3meta c3body
    rfl rfl (by decide) (by decide) (by decide) (by decide) rfl (by decide) (by decide) (by decide)

-- ---------------------------------------------------------------------------
-- src/run.ts — `runSummarizeSite` summarization core (lines 181-224)
-- ---------------------------------------------------------------------------

/-- `SiteResult` (src/site.ts:243-248). -/
structure SiteResult where
  rootUrl : Str
  title : Str
  pages : List SitePage
  totalWords : Nat
deriving Repr

/-- `MAX_SITE_WORDS` (src/run.ts:29). -/
def MAX_SITE_WORDS : Nat := 60000

/-- JavaScript `Array.prototype.join(sep)`. -/
def joinSep (sep : Str) : List Str → Str
  | [] => []
  | [x] => x
  | x :: xs => x ++ sep ++ joinSep sep xs

/-- The per-page section format of site content
(src/run.ts:177-179 and 199-201):
`--- ${p.title} (${p.url}) ---\n${p.content}` joined by blank lines. -/
def formatPages (pages : List SitePage) : Str :=
  joinSep (chars "\n\n")
    (pages.map (fun p =>
      chars "--- " ++ p.title ++ chars " (" ++ p.url ++ chars ") ---\n" ++ p.content))

/-- The labelled merge inputs (src/run.ts:216-218):
`--- Part ${i + 1} of ${total} ---\n${s}` for the i-th chunk summary. -/
def labelParts (total : Nat) : Nat → List Str → List Str
  | _, [] => []
  | i, s :: ss =>
    (chars "--- Part " ++ natToStr (i + 1) ++ chars " of " ++ natToStr total ++
      chars " ---\n" ++ s) :: labelParts total (i + 1) ss

/-- One call made to the summarization oracle, with the `type` field of its
metadata and the content passed. -/
structure OracleCall where
  type : Str
  content : Str
deriving DecidableEq, Repr

/-- The summarization core of `runSummarizeSite` (src/run.ts:181-224),
instrumented with the list of oracle calls it makes, in order: a single
"site" call when the total word count fits the budget; otherwise one "site"
call per chunk (`Promise.all` preserves order) followed by one "site-merge"
call on the labelled partial summaries. -/
def runSiteSummary (site : SiteResult) (oracle : Str → OracleMeta → Str) :
    Str × List OracleCall :=
  let content := formatPages site.pages
  if site.totalWords ≤ MAX_SITE_WORDS then
    (oracle content ⟨site.title, site.rootUrl, chars "site"⟩,
     [⟨chars "site", content⟩])
  else
    let chunks := chunkPages site.pages MAX_SITE_WORDS
    let chunkSums := chunks.map
      (fun chunk => oracle (formatPages chunk) ⟨site.title, site.rootUrl, chars "site"⟩)
    let mergeContent := joinSep (chars "\n\n") (labelParts chunks.length 0 chunkSums)
    (oracle mergeContent ⟨site.title, site.rootUrl, chars "site-merge"⟩,
     chunks.map (fun chunk => ⟨chars "site", formatPages chunk⟩) ++
       [⟨chars "site-merge", mergeContent⟩])

theorem labelParts_length (total : Nat) :
    ∀ (i : Nat) (l : List Str), (labelParts total i l).length = l.length := by
  intro i l
  induction l generalizing i with
  | nil => rfl
  | cons s ss ih => simp [labelParts, ih]

/-- C4: the summarization core takes the single-pass path exactly when the
site's total word count is within the 60,000-word budget; above the budget
it makes one "site" call per chunk and a final "site-merge" call whose
labelled inputs number exactly the chunks. -/
theorem runSiteSummary_paths (site : SiteResult) (oracle : Str → OracleMeta → Str) :
    (site.totalWords ≤ MAX_SITE_WORDS →
      (runSiteSummary site oracle).2 = [⟨chars "site", formatPages site.pages⟩]) ∧
    (MAX_SITE_WORDS < site.totalWords →
      (runSiteSummary site oracle).2 =
        (chunkPages site.pages MAX_SITE_WORDS).map (fun c => ⟨chars "site", formatPages c⟩) ++
          [⟨chars "site-merge",
            joinSep (chars "\n\n")
              (labelParts (chunkPages site.pages MAX_SITE_WORDS).length 0
                ((chunkPages site.pages MAX_SITE_WORDS).map
                  (fun c => oracle (formatPages c) ⟨site.title, site.rootUrl, chars "site"⟩)))⟩] ∧
      (labelParts (chunkPages site.pages MAX_SITE_WORDS).length 0
          ((chunkPages site.pages MAX_SITE_WORDS).map
            (fun c => oracle (formatPages c) ⟨site.title, site.rootUrl, chars "site"⟩))).length =
        (chunkPages site.pages MAX_SITE_WORDS).length ∧
      ((runSiteSummary site oracle).2.map OracleCall.type).getLast? = some (chars "site-merge")) := by
  constructor
  · intro h
    rw [runSiteSummary, if_pos h]
  · intro h
    have hn : ¬ site.totalWords ≤ MAX_SITE_WORDS := by omega
    refine ⟨by rw [runSiteSummary, if_neg hn], ?_, ?_⟩
    · rw [labelParts_length, List.length_map]
    · rw [runSiteSummary, if_neg hn]
      simp

/-- Witness for C4: a 61,000-word site (two pages of 30,500 words) takes the
map-reduce path with two chunks and two labelled merge inputs. -/
theorem runSiteSummary_paths_witness :
    (runSiteSummary
        ⟨chars "https://a.com", chars "S",
         [⟨chars "u1", chars "t1", chars "c1", 30500⟩,
          ⟨chars "u2", chars "t2", chars "c2", 30500⟩], 61000⟩
        (fun _ _ => chars "sum")).2 =
      (chunkPages
          [⟨chars "u1", chars "t1", chars "c1", 30500⟩,
           ⟨chars "u2", chars "t2", chars "c2", 30500⟩] MAX_SITE_WORDS).map
        (fun c => ⟨chars "site", formatPages c⟩) ++
        [⟨chars "site-merge",
          joinSep (chars "\n\n")
            (labelParts
              (chunkPages
                  [⟨chars "u1", chars "t1", chars "c1", 30500⟩,
                   ⟨chars "u2", chars "t2", chars "c2", 30500⟩] MAX_SITE_WORDS).length 0
              ((chunkPages
                  [⟨chars "u1", chars "t1", chars "c1", 30500⟩,
                   ⟨chars "u2", chars "t2", chars "c2", 30500⟩] MAX_SITE_WORDS).map
                (fun c => (fun _ _ => chars "sum") (formatPages c)
                  (⟨chars "S", chars "https://a.com", chars "site"⟩ : OracleMeta))))⟩] :=
  ((runSiteSummary_paths
      ⟨chars "https://a.com", chars "S",
       [⟨chars "u1", chars "t1", chars "c1", 30500⟩,
        ⟨chars "u2", chars "t2", chars "c2", 30500⟩], 61000⟩
      (fun _ _ => chars "sum")).2 (by decide)).1

-- ---------------------------------------------------------------------------
-- src/site.ts — `stripCommonText` (cross-page boilerplate removal)
-- ---------------------------------------------------------------------------

/-- `s.split(/\s+/)`: maximal whitespace runs separate the pieces; leading
or trailing whitespace contributes an empty first or last piece, and the
empty string splits to `[""]`, as in JavaScript. `cur` is the segment being
read (reversed), `inRun` whether the previous character was whitespace. -/
def splitWsGo (cur : Str) : Bool → Str → List Str
  | _, [] => [cur.reverse]
  | inRun, c :: cs =>
    if isWs c = true then
      if inRun then splitWsGo [] true cs
      else cur.reverse :: splitWsGo [] true cs
    else splitWsGo (c :: cur) false cs

def jsSplitWs (s : Str) : List Str := splitWsGo [] false s

/-- The 8-word sliding windows of a word list, each joined with single
spaces (src/site.ts:359-371): `words.slice(i, i + 8).join(" ")` for
`0 ≤ i ≤ words.length - 8`. -/
def windows8 (ws : List Str) : List Str :=
  if ws.length < 8 then []
  else (List.range (ws.length - 8 + 1)).map (fun i => joinSep (chars " ") ((ws.drop i).take 8))

/-- The per-page `seen` set: keep only the first occurrence of each chunk,
in first-seen order. -/
def dedupGo (seen : List Str) : List Str → List Str
  | [] => []
  | x :: xs => if seen.contains x then dedupGo seen xs else x :: dedupGo (x :: seen) xs

def dedupFirst (l : List Str) : List Str := dedupGo [] l

/-- `chunkCounts.set(chunk, (chunkCounts.get(chunk) || 0) + 1)` over an
insertion-ordered association list, the iteration order of a JS `Map`. -/
def bump : List (Str × Nat) → Str → List (Str × Nat)
  | [], k => [(k, 1)]
  | e :: es, k => if e.1 = k then (e.1, e.2 + 1) :: es else e :: bump es k

/-- The cross-page chunk counts of `stripCommonText` (src/site.ts:360-372):
for each page, each distinct window counts once. -/
def chunkCountsOf (pages : List SitePage) : List (Str × Nat) :=
  pages.foldl
    (fun counts page => (dedupFirst (windows8 (jsSplitWs page.content))).foldl bump counts) []

/-- The chunks appearing in at least 80% of the pages
(`Math.floor(pages.length * 0.8)`, src/site.ts:375-379; for the page counts
arising here the IEEE-754 product floors to `4 * n / 5`). -/
def commonChunksOf (pages : List SitePage) : List Str :=
  ((chunkCountsOf pages).filter (fun e => pages.length * 4 / 5 ≤ e.2)).map (fun e => e.1)

/-- JavaScript `content.replaceAll(chunk, "")`: remove every occurrence in
one left-to-right pass without rescanning the spliced result. The fuel is a
structural-recursion device only: every step consumes at least one
character, so `s.length` fuel always suffices. -/
def removeAllFuel (pat : Str) : Nat → Str → Str
  | _, [] => []
  | 0, s => s
  | fuel + 1, c :: cs =>
    if pat ≠ [] ∧ leadsWith pat (c :: cs) = true then
      removeAllFuel pat fuel ((c :: cs).drop pat.length)
    else c :: removeAllFuel pat fuel cs

def removeAll (pat s : Str) : Str := removeAllFuel pat s.length s

/-- `content.replace(/\s+/g, " ").trim()` (src/site.ts:389). -/
def collapseWs (s : Str) : Str := jsTrim (wsRunsTo ' ' s)

/-- `stripCommonText` (src/site.ts:354-396). -/
def stripCommonText (pages : List SitePage) : List SitePage :=
  if pages.length < 3 then pages
  else
    let commonChunks := commonChunksOf pages
    if commonChunks = [] then pages
    else
      pages.map (fun page =>
        let content :=
          collapseWs (commonChunks.foldl (fun c chunk => removeAll chunk c) page.content)
        { page with content := content, words := (jsSplitWs content).length })

/-- C6 counterexample pages: the 8-word chunk `a b c d e f g h` occurs in
all three pages, but in the first page the removal splices `a b c d` and
`e f g h` together, and after whitespace collapse the page's content is the
common chunk itself. -/
def cexPageA : SitePage := ⟨chars "u1", chars "t1", chars "a b c d a b c d e f g h e f g h", 16⟩
def cexPageB : SitePage := ⟨chars "u2", chars "t2", chars "m n o a b c d e f g h p", 12⟩
def cexPageC : SitePage := ⟨chars "u3", chars "t3", chars "q r s a b c d e f g h t", 12⟩
def cexPhrase8 : Str := chars "a b c d e f g h"

/-- C6 counterexample: an 8-word chunk common to all three pages (threshold
`floor(3 * 0.8) = 2`) that still occurs — in fact the whole content — in a
page after `stripCommonText`: removal is a single non-rescanning pass, and
the whitespace collapse can splice the phrase back together. -/
theorem stripCommonText_cex :
    cexPhrase8 ∈ commonChunksOf [cexPageA, cexPageB, cexPageC] ∧
    ∃ p ∈ stripCommonText [cexPageA, cexPageB, cexPageC],
      hasSub cexPhrase8 p.content = true := by
  refine ⟨by decide, by decide⟩

/-- The pages of end-to-end scenario B: the 8-word Copyright phrase embedded
between per-page unique words. -/
def scenPhrase : Str := chars "Copyright 2024 All Rights Reserved Privacy Policy Terms"
def scenPage1 : SitePage :=
  ⟨chars "s1", chars "p1",
   chars "alpha beta Copyright 2024 All Rights Reserved Privacy Policy Terms gamma delta", 12⟩
def scenPage2 : SitePage :=
  ⟨chars "s2", chars "p2",
   chars "epsilon zeta Copyright 2024 All Rights Reserved Privacy Policy Terms eta theta", 12⟩
def scenPage3 : SitePage :=
  ⟨chars "s3", chars "p3",
   chars "iota kappa Copyright 2024 All Rights Reserved Privacy Policy Terms lambda mu", 12⟩

/-- C6 (amended): occurrences present when a common chunk is processed are
removed in one pass, which on scenario B's pages — the repeated 8-word
phrase "Copyright 2024 All Rights Reserved Privacy Policy Terms" plus
unique body text — leaves the phrase absent from all three pages'
post-strip content (the phrase is classified common: it appears in 3 ≥ 2
pages). -/
theorem stripCommonText_scenarioB :
    scenPhrase ∈ commonChunksOf [scenPage1, scenPage2, scenPage3] ∧
    ∀ p ∈ stripCommonText [scenPage1, scenPage2, scenPage3],
      hasSub scenPhrase p.content = false := by
  refine ⟨by decide, by decide⟩

/-- Witness for C6's amended theorem at the first post-strip page. -/
theorem stripCommonText_scenarioB_witness :
    hasSub scenPhrase
      (SitePage.content ⟨chars "s1", chars "p1", chars "alpha beta gamma delta", 4⟩) = false :=
  stripCommonText_scenarioB.2 ⟨chars "s1", chars "p1", chars "alpha beta gamma delta", 4⟩
    (by decide)

-- ---------------------------------------------------------------------------
-- src/site.ts — `crawlLinks` (link-crawl discovery fallback)
-- ---------------------------------------------------------------------------

end Els
